import Mathlib

/-!
Verification of the dmm dependency-manifest manager.

Text is modelled as `List Char`. The JavaScript string primitives used by the
source (`indexOf`, `lastIndexOf`, `substring`, `split`, `replace` with a string
pattern) are embedded below with their JavaScript semantics: `indexOf` and
`lastIndexOf` return `-1` when the pattern is absent, `substring` clamps its
arguments to `[0, length]` and swaps them when out of order, `split` splits on
every occurrence of a non-empty separator, and `replace` substitutes only the
first occurrence, literally.
-/

namespace Dmm

/-- First index at which `pat` occurs in the list, scanning from the left
(the index JavaScript `indexOf` returns when it is not `-1`). -/
def firstIdx (pat : List Char) : List Char → Option Nat
  | [] => if pat <+: ([] : List Char) then some 0 else none
  | c :: t => if pat <+: (c :: t) then some 0 else Option.map (fun i => i + 1) (firstIdx pat t)

/-- Last index at which `pat` occurs in the list
(the index JavaScript `lastIndexOf` returns when it is not `-1`). -/
def lastIdx (pat : List Char) : List Char → Option Nat
  | [] => if pat <+: ([] : List Char) then some 0 else none
  | c :: t =>
    match lastIdx pat t with
    | some i => some (i + 1)
    | none => if pat <+: (c :: t) then some 0 else none

/-- JavaScript `s.indexOf(pat)`. -/
def jsIndexOf (s pat : List Char) : Int :=
  match firstIdx pat s with
  | none => -1
  | some i => (i : Int)

/-- JavaScript `s.lastIndexOf(pat)`. -/
def jsLastIndexOf (s pat : List Char) : Int :=
  match lastIdx pat s with
  | none => -1
  | some i => (i : Int)

/-- JavaScript `s.substring(a, b)`: clamp both arguments into `[0, length]`,
swap them if needed, and return the slice in between. -/
def jsSubstring (s : List Char) (a b : Int) : List Char :=
  let n : Int := (s.length : Int)
  let a' : Nat := (min (max a 0) n).toNat
  let b' : Nat := (min (max b 0) n).toNat
  (s.drop (min a' b')).take (max a' b' - min a' b')

/-- JavaScript `s.split(sep)` for a non-empty separator, fuelled so that the
recursion is structural (the fuel is the length of the string, which the scan
never exhausts). -/
def jsSplitFuel (sep : List Char) : Nat → List Char → List (List Char)
  | _, [] => [[]]
  | 0, s => [s]
  | fuel + 1, c :: t =>
    if sep ≠ [] ∧ sep <+: (c :: t) then
      [] :: jsSplitFuel sep fuel ((c :: t).drop sep.length)
    else
      match jsSplitFuel sep fuel t with
      | [] => [[c]]
      | h :: r => (c :: h) :: r

/-- JavaScript `s.split(sep)`. -/
def jsSplit (sep s : List Char) : List (List Char) :=
  jsSplitFuel sep s.length s

/-- JavaScript `s.replace(pat, repl)` with a string pattern: replace only the
first occurrence (literal replacement). -/
def jsReplace (s pat repl : List Char) : List Char :=
  match firstIdx pat s with
  | none => s
  | some i => s.take i ++ repl ++ s.drop (i + pat.length)

/-- `Module` record of `src/dmm.ts` (fields `std`, `name`, `version`, `url`,
`latestRelease`, `updated`; `repo` is irrelevant to the claims and omitted).
`latestRelease` is `none` before the resolver runs (JavaScript `undefined`),
`updated` is `false` before the rewriter sets it (JavaScript `undefined`). -/
structure Module where
  std : Bool
  name : List Char
  version : List Char
  url : List Char
  latestRelease : Option (List Char)
  updated : Bool
deriving DecidableEq, Repr

/-- The hosting-domain marker of `src/dmm.ts` line 75. -/
def fromMarker : List Char := "from \"https://deno.land/".data

/-- The standard-library marker of `src/dmm.ts` line 79. -/
def stdMarker : List Char := "https://deno.land/std".data

def fromQuote : List Char := "from \"".data

def quoteStr : List Char := "\"".data

def stdAtStr : List Char := "/std@".data

def slashStr : List Char := "/".data

def atStr : List Char := "@".data

def xSlashStr : List Char := "/x/".data

def modTsStr : List Char := "/mod.ts".data

/-- JavaScript string coercion of `undefined` (string concatenation with an
absent `latestRelease` produces the text `undefined`). -/
def undefinedStr : List Char := "undefined".data

/-- The body of the `listOfDeps.forEach` callback in
`getModulesFromDepsFile` (`src/dmm.ts` lines 73-95): classify and extract one
line. `.ok none` is the early `return` for lines without the hosting marker;
`.error ()` is a thrown `TypeError` (accessing `.split` on the `undefined`
result of `split(...)[1]` when the fragment pattern is absent). -/
def parseLine (dep : List Char) : Except Unit (Option Module) :=
  if jsIndexOf dep fromMarker = -1 then Except.ok none
  else
    let std : Bool := decide (0 ≤ jsIndexOf dep stdMarker)
    let url : List Char := jsSubstring dep (jsLastIndexOf dep fromQuote + 6) (jsLastIndexOf dep quoteStr)
    if std then
      match (jsSplit stdAtStr dep)[1]? with
      | none => Except.error ()
      | some afterStd =>
        let version : List Char := (jsSplit slashStr afterStd).headD []
        match (jsSplit (atStr ++ version ++ slashStr) dep)[1]? with
        | none => Except.error ()
        | some afterVer =>
          let name : List Char := (jsSplit slashStr afterVer).headD []
          Except.ok (some (Module.mk true name version url none false))
    else
      let version : List Char := jsSubstring dep (jsLastIndexOf dep atStr + 1) (jsLastIndexOf dep modTsStr)
      let name : List Char := jsSubstring dep (jsLastIndexOf dep xSlashStr + 3) (jsLastIndexOf dep atStr)
      Except.ok (some (Module.mk false name version url none false))

/-- The `forEach` loop of `getModulesFromDepsFile` over the non-empty lines,
including the `modulesForPurpose` filter of `src/dmm.ts` lines 97-104. An
exception on any line aborts the whole loop. -/
def parseDeps (modulesForPurpose : List (List Char)) : List (List Char) → Except Unit (List Module)
  | [] => Except.ok []
  | dep :: rest =>
    match parseLine dep with
    | Except.error e => Except.error e
    | Except.ok none => parseDeps modulesForPurpose rest
    | Except.ok (some m) =>
      match parseDeps modulesForPurpose rest with
      | Except.error e => Except.error e
      | Except.ok ms =>
        if modulesForPurpose ≠ [] ∧ m.name ∈ modulesForPurpose then Except.ok (m :: ms)
        else if modulesForPurpose = [] then Except.ok (m :: ms)
        else Except.ok ms

/-- `getModulesFromDepsFile` (`src/dmm.ts` lines 64-107) on the already-read
file content: split into lines, drop empty lines, collate a `Module` per
candidate line. -/
def getModulesFromDepsFile (modulesForPurpose : List (List Char)) (depsContent : List Char) : Except Unit (List Module) :=
  parseDeps modulesForPurpose ((jsSplit "\n".data depsContent).filter (fun l => !l.isEmpty))

/-- `addLatestReleaseForModules` (`src/dmm.ts` lines 140-154). The network
Release Resolver is modelled as an opaque function `resolve` from module name
to latest version; for standard-library modules the source uses the imported
constant `denoStdLatestVersion`, passed here as `stdLatest`. -/
def addLatestReleaseForModules (stdLatest : List Char) (resolve : List Char → List Char) (modules : List Module) : List Module :=
  modules.map (fun m => Module.mk m.std m.name m.version m.url (some (if m.std then stdLatest else resolve m.name)) m.updated)

/-- The old fragment `purposes.update` searches for (`src/dmm.ts` lines 189
and 196): `std@<version>/<name>` for standard-library records,
`<name>@<version>` for third-party records. -/
def oldFrag (m : Module) : List Char :=
  if m.std then "std@".data ++ m.version ++ "/".data ++ m.name
  else m.name ++ "@".data ++ m.version

/-- The replacement fragment of `purposes.update`: for standard-library
records the imported constant `denoStdLatestVersion` is used, for third-party
records `module.latestRelease` (JavaScript string concatenation turns an
absent value into the text `undefined`). -/
def newFrag (stdLatest : List Char) (m : Module) : List Char :=
  if m.std then "std@".data ++ stdLatest ++ "/".data ++ m.name
  else m.name ++ "@".data ++ (m.latestRelease.getD undefinedStr)

/-- The skip test of `purposes.update` (`src/dmm.ts` lines 186 and 193): a
standard-library record is compared against the global `denoStdLatestVersion`,
a third-party record against its own `latestRelease`. -/
def skipped (stdLatest : List Char) (m : Module) : Bool :=
  if m.std then decide (m.version = stdLatest) else decide (some m.version = m.latestRelease)

def setUpdated (m : Module) : Module :=
  Module.mk m.std m.name m.version m.url m.latestRelease true

/-- One iteration of the `modules.forEach` rewrite loop of `purposes.update`
(`src/dmm.ts` lines 183-199), threading the evolving `depsContent` and the
mutated module list. -/
def updateStep (stdLatest : List Char) (acc : List Char × List Module) (m : Module) : List Char × List Module :=
  if skipped stdLatest m then (acc.1, acc.2 ++ [m])
  else (jsReplace acc.1 (oldFrag m) (newFrag stdLatest m), acc.2 ++ [setUpdated m])

/-- The rewrite loop of `purposes.update` (`src/dmm.ts` lines 183-199): the
first component is the new file content, the second the module list with the
`updated` flags the loop set. -/
def updateDeps (stdLatest : List Char) (modules : List Module) (depsContent : List Char) : List Char × List Module :=
  modules.foldl (updateStep stdLatest) (depsContent, [])

/-- The `listOfModuleNamesToBeUpdated` accumulation of `purposes.check`
(`src/dmm.ts` lines 160-170): a name is pushed whenever
`module.version !== module.latestRelease` (JavaScript strict inequality, so an
absent `latestRelease` also differs from any string). -/
def checkListToBeUpdated (modules : List Module) : List (List Char) :=
  modules.foldl (fun acc m => if some m.version = m.latestRelease then acc else acc ++ [m.name]) []

/-- The `update` pipeline of `src/dmm.ts` run against fixed file content:
parse `deps.ts`, resolve latest releases, rewrite. Returns the new file
content, or the propagated parser exception. -/
def runUpdatePipeline (stdLatest : List Char) (resolve : List Char → List Char) (names : List (List Char)) (depsContent : List Char) : Except Unit (List Char) :=
  match getModulesFromDepsFile names depsContent with
  | Except.error e => Except.error e
  | Except.ok mods => Except.ok (updateDeps stdLatest (addLatestReleaseForModules stdLatest resolve mods) depsContent).1

/-- Module record of the newer sources `src/unnamed/part_000` and
`src/unnamed/part_001` (fields `importedVersion`, `importUrl`,
`latestRelease`). -/
structure UModule where
  name : List Char
  importedVersion : List Char
  latestRelease : Option (List Char)
  std : Bool
  importUrl : List Char
deriving DecidableEq, Repr

/-- The selection filter shared by `UpdateSubcommand.handle`
(`src/unnamed/part_000` lines 19-25) and `check` (`src/unnamed/part_001`
lines 14-20): with a non-empty request keep only requested names, otherwise
keep everything. -/
def selectModules (dependencies : List (List Char)) (allModules : List UModule) : List UModule :=
  allModules.filter (fun m => if dependencies.length ≠ 0 then decide (m.name ∈ dependencies) else true)

/-- One iteration of the rewrite loop of `UpdateSubcommand.handle`
(`src/unnamed/part_000` lines 43-66). -/
def updateSubStep (acc : List Char × Bool) (m : UModule) : List Char × Bool :=
  if m.latestRelease = some m.importedVersion then acc
  else if m.std then
    (jsReplace acc.1 ("std@".data ++ m.importedVersion ++ "/".data ++ m.name)
      ("std@".data ++ m.latestRelease.getD undefinedStr ++ "/".data ++ m.name), true)
  else
    (jsReplace acc.1 m.importUrl (jsReplace m.importUrl m.importedVersion (m.latestRelease.getD undefinedStr)), true)

/-- The rewrite loop of `UpdateSubcommand.handle`, returning the new file
content and the `depsWereUpdated` flag. -/
def updateSubRewrite (modules : List UModule) (depsContent : List Char) : List Char × Bool :=
  modules.foldl updateSubStep (depsContent, false)

/-- `UpdateSubcommand.handle` after argument parsing (`src/unnamed/part_000`
lines 19-72): filter the modules, exit with status 1 when none survive
(before the manifest is rewritten), otherwise rewrite. -/
def updateSubcommandRun (dependencies : List (List Char)) (allModules : List UModule) (depsContent : List Char) : Except Nat (List Char × Bool) :=
  if (selectModules dependencies allModules).length = 0 then Except.error 1
  else Except.ok (updateSubRewrite (selectModules dependencies allModules) depsContent)

/-- Projection used to state parser field-extraction facts. -/
def versionOf (r : Except Unit (Option Module)) : Option (List Char) :=
  match r with
  | Except.ok (some m) => some m.version
  | _ => none

/-- Projection used to state parser field-extraction facts. -/
def nameOf (r : Except Unit (Option Module)) : Option (List Char) :=
  match r with
  | Except.ok (some m) => some m.name
  | _ => none

/-! Concrete inputs used by the claim theorems. -/

/-- A manifest line importing a third-party module `myfoo` at `1.0.0`. -/
def myfooLine : List Char := "import { a } from \"https://deno.land/x/myfoo@1.0.0/mod.ts\";".data

/-- A manifest line importing a third-party module `foo` at `1.0.0`. -/
def fooLine : List Char := "import { b } from \"https://deno.land/x/foo@1.0.0/mod.ts\";".data

/-- A manifest declaring `myfoo@1.0.0` and then `foo@1.0.0`. -/
def pairManifest : List Char := myfooLine ++ "\n".data ++ fooLine

/-- What the update pipeline actually produces from `pairManifest` when only
`foo` is updatable: the `myfoo` line is corrupted to `myfoo@2.0.0` and the
`foo` line is left at `1.0.0`. -/
def pairManifestCorrupted : List Char :=
  "import { a } from \"https://deno.land/x/myfoo@2.0.0/mod.ts\";\nimport { b } from \"https://deno.land/x/foo@1.0.0/mod.ts\";".data

/-- A stable Release Resolver: latest of `foo` is `2.0.0`, latest of anything
else is `1.0.0`. -/
def resolvePair : List Char → List Char :=
  fun n => if n = "foo".data then "2.0.0".data else "1.0.0".data

def stdLatestSample : List Char := "0.60.0".data

/-- A standard-library import line without a version tag: it contains the
hosting-domain marker and the standard-library marker but no `/std@`
fragment, so it matches neither fixed pattern. -/
def versionlessStdLine : List Char := "export { fs } from \"https://deno.land/std/fs/mod.ts\";".data

/-- A third-party import line whose trailing comment mentions a
standard-library URL: the quoted URL contains no standard-library segment,
but the line as a whole does. -/
def commentStdLine : List Char :=
  "import { foo } from \"https://deno.land/x/foo@1.0.0/mod.ts\" // https://deno.land/std@0.9.9/fs/etc".data

/-- The record the parser actually produces from `commentStdLine`. -/
def commentStdModule : Module :=
  Module.mk true "fs".data "0.9.9".data "https://deno.land/x/foo@1.0.0/mod.ts".data none false

/-- The module list a second update run works on: parse the first run's
output and resolve latest releases again with the same stable resolver. -/
def secondRunModules : List Module :=
  addLatestReleaseForModules stdLatestSample resolvePair
    ((getModulesFromDepsFile [] pairManifestCorrupted).toOption.getD [])

/-- An updatable third-party record whose old fragment `foo@1.0.0` does not
occur in the text handed to the rewriter. -/
def noFragModule : Module :=
  Module.mk false "foo".data "1.0.0".data "https://deno.land/x/foo@1.0.0/mod.ts".data (some "2.0.0".data) false

/-- A record the resolver never reached: `latestRelease` is absent. -/
def absentLatestModule : Module :=
  Module.mk false "foo".data "1.0.0".data "https://deno.land/x/foo@1.0.0/mod.ts".data none false

/-- A third-party record at its latest release (used to witness the amended
idempotence theorem). -/
def upToDateModule : Module :=
  Module.mk false "aaa".data "1.0.0".data "https://deno.land/x/aaa@1.0.0/mod.ts".data (some "1.0.0".data) false

def alphaLine : List Char := "import { a } from \"https://deno.land/x/alpha@1.0.0/mod.ts\";".data

def betaLine : List Char := "import { b } from \"https://deno.land/x/beta@1.0.0/mod.ts\";".data

def alphaBetaManifest : List Char := alphaLine ++ "\n".data ++ betaLine

def alphaModule : Module :=
  Module.mk false "alpha".data "1.0.0".data "https://deno.land/x/alpha@1.0.0/mod.ts".data none false

def betaModule : Module :=
  Module.mk false "beta".data "1.0.0".data "https://deno.land/x/beta@1.0.0/mod.ts".data none false

/-- An updatable record used to witness the first-occurrence-only theorem. -/
def firstOccModule : Module :=
  Module.mk false "foo".data "1.0.0".data "https://deno.land/x/foo@1.0.0/mod.ts".data (some "2.0.0".data) false

/-- A well-formed third-party import line, used to witness the field
extraction theorem. -/
def thirdPartyLine : List Char := "import { foo } from \"https://deno.land/x/foo@1.0.0/mod.ts\";".data

/-- The part of `thirdPartyLine` before the registry path marker. -/
def thirdPartyPre : List Char := "import { foo } from \"https://deno.land".data

/-! Helper lemmas about occurrences, `firstIdx` and `lastIdx`. -/

theorem occNil {pat : List Char} (h : pat <:+: ([] : List Char)) : pat = [] := by
  obtain ⟨u, v, hv⟩ := h
  have h2 : u ++ pat = [] := (List.append_eq_nil.mp hv).1
  exact (List.append_eq_nil.mp h2).2

theorem occHead {c : Char} {rest s : List Char} (h : (c :: rest) <:+: s) : c ∈ s := by
  obtain ⟨u, v, hv⟩ := h
  rw [← hv]
  simp

theorem occOfPre {pat s : List Char} (h : pat <+: s) : pat <:+: s := by
  obtain ⟨v, hv⟩ := h
  exact ⟨[], v, by simpa using hv⟩

theorem nilOcc (s : List Char) : ([] : List Char) <:+: s := ⟨[], s, by simp⟩

theorem occCons {pat : List Char} {c : Char} {t : List Char} :
    pat <:+: (c :: t) ↔ pat <+: (c :: t) ∨ pat <:+: t := by
  constructor
  · rintro ⟨u, v, hv⟩
    cases u with
    | nil => exact Or.inl ⟨v, by simpa using hv⟩
    | cons a u' =>
      have hv' : a :: (u' ++ pat ++ v) = c :: t := by simpa using hv
      injection hv' with h1 h2
      exact Or.inr ⟨u', v, h2⟩
  · rintro (⟨v, hv⟩ | ⟨u, v, hv⟩)
    · exact ⟨[], v, by simpa using hv⟩
    · exact ⟨c :: u, v, by simp [hv]⟩

theorem preOfTakeOf {pat s : List Char} {n : Nat} (h : pat <+: s) (hn : pat.length ≤ n) :
    pat <+: s.take n := by
  obtain ⟨v, hv⟩ := h
  refine ⟨v.take (n - pat.length), ?_⟩
  rw [← hv, List.take_append_eq_append_take, List.take_of_length_le hn]

theorem firstIdx_none_iff (pat s : List Char) : firstIdx pat s = none ↔ ¬ pat <:+: s := by
  induction s with
  | nil =>
    by_cases h : pat <+: ([] : List Char)
    · simp only [firstIdx, if_pos h]
      simp only [reduceCtorEq, false_iff, not_not]
      exact occOfPre h
    · simp only [firstIdx, if_neg h]
      simp only [true_iff]
      intro hocc
      exact h (by simp [occNil hocc])
  | cons c t ih =>
    by_cases h : pat <+: (c :: t)
    · simp [firstIdx, h, occCons]
    · simp [firstIdx, h, occCons, ih]

theorem firstIdx_some_intro (pat : List Char) : ∀ (s : List Char) (i : Nat),
    pat <+: s.drop i → ¬ pat <:+: s.take (i + pat.length - 1) → firstIdx pat s = some i := by
  intro s
  induction s with
  | nil =>
    intro i h1 h2
    obtain ⟨v, hv⟩ := h1
    rw [List.drop_nil] at hv
    have hp : pat = [] := (List.append_eq_nil.mp hv).1
    exact absurd (hp ▸ nilOcc _) h2
  | cons c t ih =>
    intro i h1 h2
    match i with
    | 0 =>
      simp only [List.drop_zero] at h1
      simp [firstIdx, h1]
    | j + 1 =>
      have hpos : 0 < pat.length := by
        rcases pat with _ | ⟨p0, ps⟩
        · exact absurd (nilOcc _) h2
        · simp
      have hnp : ¬ pat <+: (c :: t) := by
        intro hp
        exact h2 (occOfPre (preOfTakeOf hp (by omega)))
      rw [firstIdx, if_neg hnp]
      have ht : firstIdx pat t = some j := by
        apply ih
        · simpa using h1
        · intro hocc
          apply h2
          have harith : j + 1 + pat.length - 1 = (j + pat.length - 1) + 1 := by omega
          rw [harith, List.take_succ_cons]
          exact occCons.mpr (Or.inr hocc)
      rw [ht]
      rfl

theorem lastIdx_none_iff (pat s : List Char) : lastIdx pat s = none ↔ ¬ pat <:+: s := by
  induction s with
  | nil =>
    by_cases h : pat <+: ([] : List Char)
    · simp only [lastIdx, if_pos h]
      simp only [reduceCtorEq, false_iff, not_not]
      exact occOfPre h
    · simp only [lastIdx, if_neg h]
      simp only [true_iff]
      intro hocc
      exact h (by simp [occNil hocc])
  | cons c t ih =>
    rw [lastIdx]
    cases hlt : lastIdx pat t with
    | some i =>
      simp only [reduceCtorEq, false_iff, not_not]
      have : pat <:+: t := by
        by_contra hno
        rw [← ih] at hno
        rw [hlt] at hno
        simp at hno
      exact occCons.mpr (Or.inr this)
    | none =>
      have hnt : ¬ pat <:+: t := ih.mp hlt
      by_cases h : pat <+: (c :: t)
      · simp only [if_pos h, reduceCtorEq, false_iff, not_not]
        exact occOfPre h
      · simp only [if_neg h, true_iff]
        rw [occCons]
        rintro (hp | ho)
        · exact h hp
        · exact hnt ho

theorem lastIdx_some_intro (pat : List Char) : ∀ (s : List Char) (i : Nat),
    pat <+: s.drop i → ¬ pat <:+: s.drop (i + 1) → lastIdx pat s = some i := by
  intro s
  induction s with
  | nil =>
    intro i h1 h2
    obtain ⟨v, hv⟩ := h1
    rw [List.drop_nil] at hv
    have hp : pat = [] := (List.append_eq_nil.mp hv).1
    exact absurd (hp ▸ nilOcc _) h2
  | cons c t ih =>
    intro i h1 h2
    match i with
    | 0 =>
      simp only [List.drop_zero] at h1
      have hlt : lastIdx pat t = none := by
        rw [lastIdx_none_iff]
        simpa using h2
      rw [lastIdx, hlt, if_pos h1]
    | j + 1 =>
      have ht : lastIdx pat t = some j := by
        apply ih
        · simpa using h1
        · simpa using h2
      rw [lastIdx, ht]

theorem lastIdx_append (pat : List Char) (w : List Char) (i : Nat)
    (h : lastIdx pat w = some i) : ∀ (u : List Char), lastIdx pat (u ++ w) = some (u.length + i) := by
  intro u
  induction u with
  | nil => simpa using h
  | cons c u' ih =>
    rw [List.cons_append, lastIdx, ih]
    simp [Nat.add_assoc, Nat.add_comm 1 i]

theorem lastIdx_front (pat R : List Char) (h : ¬ pat <:+: (pat ++ R).drop 1) :
    lastIdx pat (pat ++ R) = some 0 := by
  apply lastIdx_some_intro
  · rw [List.drop_zero]
    exact ⟨R, rfl⟩
  · simpa using h

theorem jsIndexOf_eq_neg_iff (s pat : List Char) : jsIndexOf s pat = -1 ↔ firstIdx pat s = none := by
  rw [jsIndexOf]
  cases h : firstIdx pat s with
  | none => simp
  | some i => simp

theorem jsIndexOf_nonneg_iff (s pat : List Char) : 0 ≤ jsIndexOf s pat ↔ firstIdx pat s ≠ none := by
  rw [jsIndexOf]
  cases h : firstIdx pat s with
  | none => simp
  | some i => simp [Int.natCast_nonneg]

theorem jsLastIndexOf_eq (s pat : List Char) (i : Nat) (h : lastIdx pat s = some i) :
    jsLastIndexOf s pat = (i : Int) := by
  rw [jsLastIndexOf, h]

theorem jsSubstring_nat (s : List Char) (a b : Nat) (hab : a ≤ b) (hb : b ≤ s.length) :
    jsSubstring s (a : Int) (b : Int) = (s.drop a).take (b - a) := by
  rw [jsSubstring]
  have ha' : (min (max (a : Int) 0) (s.length : Int)).toNat = a := by omega
  have hb' : (min (max (b : Int) 0) (s.length : Int)).toNat = b := by omega
  rw [ha', hb', Nat.min_eq_left hab, Nat.max_eq_right hab]

theorem jsReplace_at (s pat repl : List Char) (i : Nat) (h : firstIdx pat s = some i) :
    jsReplace s pat repl = s.take i ++ repl ++ s.drop (i + pat.length) := by
  rw [jsReplace, h]

/-! Helper lemmas about the rewrite and check loops. -/

theorem updateDeps_snd_go (st : List Char) : ∀ (mods : List Module) (t : List Char) (acc : List Module),
    (List.foldl (updateStep st) (t, acc) mods).2 =
      acc ++ mods.map (fun m => if skipped st m then m else setUpdated m) := by
  intro mods
  induction mods with
  | nil => intro t acc; simp
  | cons m rest ih =>
    intro t acc
    rw [List.foldl_cons]
    by_cases h : skipped st m
    · simp only [updateStep, h, if_true, List.map_cons]
      rw [ih]
      simp
    · simp only [updateStep, h, if_false, Bool.false_eq_true, List.map_cons]
      rw [ih]
      simp [h]

theorem updateDeps_skip_go (st : List Char) : ∀ (mods : List Module) (t : List Char) (acc : List Module),
    (∀ m ∈ mods, skipped st m = true) →
    List.foldl (updateStep st) (t, acc) mods = (t, acc ++ mods) := by
  intro mods
  induction mods with
  | nil => intro t acc _; simp
  | cons m rest ih =>
    intro t acc hall
    rw [List.foldl_cons]
    have hm : skipped st m = true := hall m (by simp)
    simp only [updateStep, hm, if_true]
    rw [ih t (acc ++ [m]) (fun x hx => hall x (by simp [hx]))]
    simp

theorem checkList_go : ∀ (mods : List Module) (acc : List (List Char)),
    List.foldl (fun acc m => if some m.version = m.latestRelease then acc else acc ++ [m.name]) acc mods =
      acc ++ (mods.filter (fun m => !decide (some m.version = m.latestRelease))).map Module.name := by
  intro mods
  induction mods with
  | nil => intro acc; simp
  | cons m rest ih =>
    intro acc
    rw [List.foldl_cons]
    by_cases h : some m.version = m.latestRelease
    · simp only [h, if_true, List.filter_cons]
      rw [ih]
      simp [h]
    · simp only [h, if_false]
      rw [ih]
      simp [h, List.filter_cons]

/-- Parsing with a requested-name filter returns exactly the unfiltered parse
filtered by membership. -/
theorem parseDeps_req_eq (req : List (List Char)) : ∀ (lines : List (List Char)) (all : List Module),
    parseDeps [] lines = Except.ok all →
    parseDeps req lines = Except.ok (all.filter (fun m => decide (req = []) || decide (m.name ∈ req))) := by
  intro lines
  induction lines with
  | nil =>
    intro all h
    rw [parseDeps] at h
    injection h with h
    rw [← h]
    rfl
  | cons dep rest ih =>
    intro all h
    rw [parseDeps] at h ⊢
    cases hp : parseLine dep with
    | error e => rw [hp] at h; exact absurd h (by simp)
    | ok o =>
      rw [hp] at h
      cases o with
      | none => exact ih all h
      | some m =>
        cases hr : parseDeps [] rest with
        | error e => rw [hr] at h; exact absurd h (by simp)
        | ok ms =>
          rw [hr] at h
          simp only [ne_eq, not_true_eq_false, false_and, if_false, if_true, reduceIte] at h
          injection h with h
          rw [← h]
          rw [ih ms hr]
          by_cases hreq : req = []
          · subst hreq
            simp
          · simp only [ne_eq, hreq, not_false_iff, true_and, if_neg hreq]
            by_cases hmem : m.name ∈ req
            · simp [hmem, List.filter_cons]
            · simp [hmem, List.filter_cons, hreq]

/-! Claim theorems. -/

set_option maxRecDepth 32768 in
/-- Claim C1: rewriter locality fails on the code. On `pairManifest` only
`foo` is updatable (latest `2.0.0`; `myfoo` is already at its latest
`1.0.0`), yet the full update pipeline changes the first line — the one that
references only `myfoo` — because the old fragment `foo@1.0.0` first occurs
inside `myfoo@1.0.0`. The `foo` line itself is left at `1.0.0`. -/
theorem update_corrupts_unrelated_line :
    runUpdatePipeline stdLatestSample resolvePair [] pairManifest = Except.ok pairManifestCorrupted ∧
    (jsSplit "\n".data pairManifestCorrupted).headD [] ≠ (jsSplit "\n".data pairManifest).headD [] ∧
    checkListToBeUpdated (addLatestReleaseForModules stdLatestSample resolvePair
      ((getModulesFromDepsFile [] pairManifest).toOption.getD [])) = ["foo".data] :=
  ⟨rfl, by decide, rfl⟩

set_option maxRecDepth 32768 in
/-- Claim C2 counterexample: update is not idempotent in the claimed sense.
Re-running the update pipeline on the first run's output with the same
stable resolver performs substitutions again: both re-parsed records differ
from their latest release, so the rewrite loop replaces and flags them. -/
theorem update_second_run_substitutes :
    1 ≤ ((updateDeps stdLatestSample secondRunModules pairManifestCorrupted).2.filter
      (fun m => m.updated)).length := by
  decide

/-- Claim C2, amended: if every record the second run works on is already at
its latest release (standard-library records at the global latest), then the
rewrite loop performs no substitution and returns the text and records
unchanged. -/
theorem update_idempotent_of_resolved (st : List Char) (mods : List Module) (t : List Char)
    (h : ∀ m ∈ mods, skipped st m = true) : updateDeps st mods t = (t, mods) := by
  rw [updateDeps, updateDeps_skip_go st mods t [] h]
  simp

theorem update_idempotent_of_resolved_witness :
    (∀ m ∈ [upToDateModule], skipped stdLatestSample m = true) ∧
    updateDeps stdLatestSample [upToDateModule] fooLine = (fooLine, [upToDateModule]) :=
  ⟨by decide, update_idempotent_of_resolved stdLatestSample [upToDateModule] fooLine (by decide)⟩

/-- Claim C3: the parser is not total on malformed candidate lines. The line
`export \x7b fs \x7d from "https://deno.land/std/fs/mod.ts";` contains the
hosting-domain marker but no `/std@` fragment, so `split('/std@')[1]` is
`undefined` and the source throws a `TypeError` instead of skipping the
line; the modelled parser returns the exception. -/
theorem parse_crashes_on_versionless_std :
    parseLine versionlessStdLine = Except.error () ∧
    getModulesFromDepsFile [] versionlessStdLine = Except.error () ∧
    firstIdx fromMarker versionlessStdLine ≠ none :=
  ⟨rfl, rfl, by decide⟩

/-- Claim C4 counterexample: the rewrite loop sets the `updated` flag for a
record whose old fragment `foo@1.0.0` does not occur in the text at all: the
text comes back unchanged, yet the returned record carries `updated = true`. -/
theorem update_flags_without_replacement :
    updateDeps stdLatestSample [noFragModule] "export const x = 1;".data =
      ("export const x = 1;".data, [setUpdated noFragModule]) ∧
    firstIdx (oldFrag noFragModule) "export const x = 1;".data = none ∧
    (setUpdated noFragModule).updated = true :=
  ⟨rfl, by decide, rfl⟩

/-- Claim C4, amended: the rewrite loop leaves a record untouched exactly
when its skip test holds (third-party: `importedVersion` equals
`latestRelease`; standard-library: `version` equals the global latest), and
sets `updated = true` on every other record — whether or not its fragment
was found in the text. -/
theorem update_flag_iff_version_differs (st : List Char) (mods : List Module) (t : List Char) :
    (updateDeps st mods t).2 = mods.map (fun m => if skipped st m then m else setUpdated m) := by
  rw [updateDeps, updateDeps_snd_go]
  simp

/-- Claim C5 counterexample: a record whose `latestRelease` is absent is
reported as updatable by the check loop (JavaScript `!==` compares the
version string with `undefined`), contradicting the claim that records with
absent latest version are not updatable. -/
theorem check_reports_absent_latest :
    checkListToBeUpdated [absentLatestModule] = ["foo".data] ∧
    absentLatestModule.latestRelease = none :=
  ⟨rfl, rfl⟩

/-- Claim C5, amended: the check loop reports a record as updatable iff its
`latestRelease` differs from `some version` — that is, iff the latest
release is absent or differs from the imported version. -/
theorem check_updatable_iff (mods : List Module) (n : List Char) :
    n ∈ checkListToBeUpdated mods ↔ ∃ m ∈ mods, m.name = n ∧ some m.version ≠ m.latestRelease := by
  rw [checkListToBeUpdated, checkList_go]
  simp only [List.nil_append, List.mem_map, List.mem_filter, Bool.not_eq_true', decide_eq_false_iff_not]
  constructor
  · rintro ⟨m, ⟨hm, hne⟩, rfl⟩
    exact ⟨m, hm, rfl, hne⟩
  · rintro ⟨m, hm, rfl, hne⟩
    exact ⟨m, ⟨hm, hne⟩, rfl⟩

/-- Claim C7 counterexample: the update subcommand exits with status 1 even
when the caller requested no particular modules (empty request) and the
manifest simply yields no records — the failure is not restricted to
non-empty requests. -/
theorem updateSubcommand_exits_on_empty_request :
    updateSubcommandRun [] [] fooLine = Except.error 1 := rfl

/-- Claim C7, amended: the update subcommand exits with status 1 exactly when
zero records survive filtering, whether or not the request was non-empty;
on that path it returns no rewritten text, so the manifest is untouched. -/
theorem updateSubcommand_exit_iff (deps : List (List Char)) (mods : List UModule) (t : List Char) :
    updateSubcommandRun deps mods t = Except.error 1 ↔ selectModules deps mods = [] := by
  rw [updateSubcommandRun]
  by_cases h : (selectModules deps mods).length = 0
  · simp [h, List.length_eq_zero.mp h]
  · simp only [h, if_false, reduceCtorEq, false_iff]
    intro hnil
    rw [hnil] at h
    simp at h

/-- Claim C8 counterexample: a third-party import line with a trailing
comment mentioning a standard-library URL is classified standard-library,
although its quoted URL (the parsed `url` field) contains no
standard-library segment — text outside the quoted URL affects the
classification. -/
theorem parse_std_from_comment :
    parseLine commentStdLine = Except.ok (some commentStdModule) ∧
    commentStdModule.std = true ∧
    firstIdx stdMarker commentStdModule.url = none :=
  ⟨rfl, rfl, by decide⟩

/-- Claim C8, amended: a parsed record is classified standard-library iff the
whole line contains `https://deno.land/std` anywhere — the test is
`dep.indexOf(...)` on the full line, not on the quoted URL. -/
theorem parse_std_iff_line_contains_marker (l : List Char) (m : Module)
    (h : parseLine l = Except.ok (some m)) :
    m.std = true ↔ 0 ≤ jsIndexOf l stdMarker := by
  simp only [parseLine] at h
  split at h
  · exact absurd h (by simp)
  · split at h
    · rename_i hcond
      have h2 : 0 ≤ jsIndexOf l stdMarker := of_decide_eq_true hcond
      split at h
      · exact absurd h (by simp)
      · split at h
        · exact absurd h (by simp)
        · injection h with h
          injection h with h
          rw [← h]
          simp [h2]
    · rename_i hcond
      have h2 : ¬ 0 ≤ jsIndexOf l stdMarker := fun hp => hcond (decide_eq_true hp)
      injection h with h
      injection h with h
      rw [← h]
      simp [h2]

theorem parse_std_iff_line_contains_marker_witness :
    parseLine commentStdLine = Except.ok (some commentStdModule) ∧
    (commentStdModule.std = true ↔ 0 ≤ jsIndexOf commentStdLine stdMarker) :=
  ⟨rfl, parse_std_iff_line_contains_marker commentStdLine commentStdModule rfl⟩

/-- Claim C6: filter correctness. Whenever parsing succeeds, a name is among
the names of the records returned for request `req` iff it is a declared
name (a name of the unfiltered parse) and — when `req` is non-empty — a
member of `req`; for empty `req` the returned names are all declared names. -/
theorem parse_filter_names (req : List (List Char)) (t : List Char) (mods all : List Module)
    (hreq : getModulesFromDepsFile req t = Except.ok mods)
    (hall : getModulesFromDepsFile [] t = Except.ok all) (n : List Char) :
    n ∈ mods.map Module.name ↔ n ∈ all.map Module.name ∧ (req = [] ∨ n ∈ req) := by
  rw [getModulesFromDepsFile] at hreq hall
  rw [parseDeps_req_eq req _ all hall] at hreq
  injection hreq with hmods
  rw [← hmods]
  simp only [List.mem_map, List.mem_filter, Bool.or_eq_true, decide_eq_true_eq]
  constructor
  · rintro ⟨m, ⟨hm, hp⟩, rfl⟩
    exact ⟨⟨m, hm, rfl⟩, hp⟩
  · rintro ⟨⟨m, hm, rfl⟩, hp⟩
    exact ⟨m, ⟨hm, hp⟩, rfl⟩

set_option maxRecDepth 32768 in
theorem parse_filter_names_witness :
    getModulesFromDepsFile ["alpha".data] alphaBetaManifest = Except.ok [alphaModule] ∧
    getModulesFromDepsFile [] alphaBetaManifest = Except.ok [alphaModule, betaModule] ∧
    ("alpha".data ∈ [alphaModule].map Module.name ↔
      "alpha".data ∈ [alphaModule, betaModule].map Module.name ∧
        (["alpha".data] = ([] : List (List Char)) ∨ "alpha".data ∈ ["alpha".data])) :=
  ⟨rfl, rfl,
    parse_filter_names ["alpha".data] alphaBetaManifest [alphaModule] [alphaModule, betaModule]
      rfl rfl "alpha".data⟩

/-- Claim C10: first-occurrence-only replacement. For an updatable record
whose old fragment occurs at position `a.length` and nowhere earlier, the
rewrite pass produces `a ++ newFrag ++ b`: the whole suffix `b` after the
replaced occurrence — including any further occurrence of the fragment —
is byte-identical. -/
theorem update_replaces_first_occurrence (st : List Char) (m : Module) (a b : List Char)
    (hup : skipped st m = false)
    (hfirst : firstIdx (oldFrag m)
      ((a ++ oldFrag m ++ b).take (a.length + (oldFrag m).length - 1)) = none) :
    (updateDeps st [m] (a ++ oldFrag m ++ b)).1 = a ++ newFrag st m ++ b ∧
    ((updateDeps st [m] (a ++ oldFrag m ++ b)).1).drop (a.length + (newFrag st m).length) = b := by
  have hidx : firstIdx (oldFrag m) (a ++ oldFrag m ++ b) = some a.length := by
    apply firstIdx_some_intro
    · rw [List.append_assoc, List.drop_left]
      exact ⟨b, rfl⟩
    · rw [← firstIdx_none_iff]
      exact hfirst
  have h1 : (updateDeps st [m] (a ++ oldFrag m ++ b)).1 = a ++ newFrag st m ++ b := by
    rw [updateDeps, List.foldl_cons, List.foldl_nil, updateStep, hup]
    simp only [Bool.false_eq_true, if_false]
    rw [jsReplace_at _ _ _ _ hidx]
    have htake : (a ++ oldFrag m ++ b).take a.length = a := by
      rw [List.append_assoc, List.take_left]
    have hdrop : (a ++ oldFrag m ++ b).drop (a.length + (oldFrag m).length) = b := by
      rw [← List.length_append, List.drop_left]
    rw [htake, hdrop]
  refine ⟨h1, ?_⟩
  rw [h1, ← List.length_append, List.drop_left]

/-- Claim C9: third-party field extraction. Consider a candidate line
classified third-party, decomposed around its registry path marker `/x/`,
its version separator `@` and its entry-point suffix `/mod.ts`, such that
these markers occur last at those junctions (no `@` inside the version or
after the suffix, no `/` after the suffix, and `/x/` does not recur after
its junction). The parser extracts `importedVersion` as exactly the text
strictly between the last `@` and the `/mod.ts` suffix, and `name` as
exactly the text strictly between `/x/` and the `@`; both are verbatim
substrings of the line. -/
theorem parse_thirdparty_fields (pre name ver post l : List Char)
    (hl : l = pre ++ xSlashStr ++ name ++ atStr ++ ver ++ modTsStr ++ post)
    (hmk : firstIdx fromMarker l ≠ none)
    (hstd : firstIdx stdMarker l = none)
    (hav : ('@' : Char) ∉ ver) (hap : ('@' : Char) ∉ post) (hsp : ('/' : Char) ∉ post)
    (hxr : ¬ xSlashStr <:+: ("x/".data ++ (name ++ (atStr ++ (ver ++ (modTsStr ++ post)))))) :
    versionOf (parseLine l) = some ver ∧ nameOf (parseLine l) = some name ∧
    ver <:+: l ∧ name <:+: l := by
  have hat1 : atStr = ['@'] := by decide
  have hxs : xSlashStr = ['/', 'x', '/'] := by decide
  have hmt : modTsStr = '/' :: "mod.ts".data := by decide
  have hx2 : "x/".data = ['x', '/'] := by decide
  have ha1 : atStr.length = 1 := by decide
  have hx3 : xSlashStr.length = 3 := by decide
  have hm7 : modTsStr.length = 7 := by decide
  -- the last `@` of the line sits between the name and the version
  have hwA : lastIdx atStr (atStr ++ (ver ++ (modTsStr ++ post))) = some 0 := by
    apply lastIdx_front
    have e1 : (atStr ++ (ver ++ (modTsStr ++ post))).drop 1 = ver ++ (modTsStr ++ post) := by
      rw [hat1]; rfl
    rw [e1]
    intro hocc
    have hmem : ('@' : Char) ∈ ver ++ (modTsStr ++ post) := occHead (hat1 ▸ hocc)
    simp only [List.mem_append] at hmem
    rcases hmem with h | h | h
    · exact hav h
    · exact absurd h (by decide)
    · exact hap h
  have hassoc1 : l = (pre ++ xSlashStr ++ name) ++ (atStr ++ (ver ++ (modTsStr ++ post))) := by
    rw [hl]; simp [List.append_assoc]
  have hA : lastIdx atStr l = some (pre.length + 3 + name.length) := by
    rw [hassoc1, lastIdx_append atStr _ 0 hwA (pre ++ xSlashStr ++ name)]
    congr 1
    simp only [List.length_append, hx3]
    omega
  -- the last `/mod.ts` of the line sits right after the version
  have hwM : lastIdx modTsStr (modTsStr ++ post) = some 0 := by
    apply lastIdx_front
    have e2 : (modTsStr ++ post).drop 1 = "mod.ts".data ++ post := by
      rw [hmt]; rfl
    rw [e2]
    intro hocc
    have hmem : ('/' : Char) ∈ "mod.ts".data ++ post := occHead (hmt ▸ hocc)
    simp only [List.mem_append] at hmem
    rcases hmem with h | h
    · exact absurd h (by decide)
    · exact hsp h
  have hassoc2 : l = (pre ++ xSlashStr ++ name ++ atStr ++ ver) ++ (modTsStr ++ post) := by
    rw [hl]; simp [List.append_assoc]
  have hM : lastIdx modTsStr l = some (pre.length + 3 + name.length + 1 + ver.length) := by
    rw [hassoc2, lastIdx_append modTsStr _ 0 hwM (pre ++ xSlashStr ++ name ++ atStr ++ ver)]
    congr 1
    simp only [List.length_append, hx3, ha1]
    omega
  -- the last `/x/` of the line sits right before the name
  have hwX : lastIdx xSlashStr (xSlashStr ++ (name ++ (atStr ++ (ver ++ (modTsStr ++ post))))) = some 0 := by
    apply lastIdx_front
    have e3 : (xSlashStr ++ (name ++ (atStr ++ (ver ++ (modTsStr ++ post))))).drop 1 =
        "x/".data ++ (name ++ (atStr ++ (ver ++ (modTsStr ++ post)))) := by
      rw [hxs, hx2]; rfl
    rw [e3]
    exact hxr
  have hassoc3 : l = pre ++ (xSlashStr ++ (name ++ (atStr ++ (ver ++ (modTsStr ++ post))))) := by
    rw [hl]; simp [List.append_assoc]
  have hX : lastIdx xSlashStr l = some pre.length := by
    rw [hassoc3, lastIdx_append xSlashStr _ 0 hwX pre]
    simp
  -- the line length
  have hlen : l.length = pre.length + 3 + name.length + 1 + ver.length + 7 + post.length := by
    rw [hl]
    simp only [List.length_append, hx3, ha1, hm7]
  -- evaluate the parser on the line
  have hc1 : ¬ jsIndexOf l fromMarker = -1 := by
    rw [jsIndexOf_eq_neg_iff]; exact hmk
  have hc2 : decide (0 ≤ jsIndexOf l stdMarker) = false := by
    rw [(jsIndexOf_eq_neg_iff l stdMarker).mpr hstd]
    decide
  have hverval : jsSubstring l (jsLastIndexOf l atStr + 1) (jsLastIndexOf l modTsStr) = ver := by
    rw [jsLastIndexOf_eq l atStr _ hA, jsLastIndexOf_eq l modTsStr _ hM]
    have hcast : ((pre.length + 3 + name.length : Nat) : Int) + 1 =
        ((pre.length + 3 + name.length + 1 : Nat) : Int) := by push_cast; ring
    rw [hcast, jsSubstring_nat l _ _ (by omega) (by omega)]
    have hdropA : l.drop (pre.length + 3 + name.length + 1) = ver ++ (modTsStr ++ post) := by
      have hulen : (pre ++ xSlashStr ++ name ++ atStr).length = pre.length + 3 + name.length + 1 := by
        simp only [List.length_append, hx3, ha1]
      calc l.drop (pre.length + 3 + name.length + 1)
          = ((pre ++ xSlashStr ++ name ++ atStr) ++ (ver ++ (modTsStr ++ post))).drop
              ((pre ++ xSlashStr ++ name ++ atStr).length) := by
            rw [hulen, hl]; simp [List.append_assoc]
        _ = ver ++ (modTsStr ++ post) := List.drop_left _ _
    rw [hdropA]
    have harith : pre.length + 3 + name.length + 1 + ver.length - (pre.length + 3 + name.length + 1) =
        ver.length := by omega
    rw [harith, List.take_left]
  have hnameval : jsSubstring l (jsLastIndexOf l xSlashStr + 3) (jsLastIndexOf l atStr) = name := by
    rw [jsLastIndexOf_eq l xSlashStr _ hX, jsLastIndexOf_eq l atStr _ hA]
    have hcast : ((pre.length : Nat) : Int) + 3 = ((pre.length + 3 : Nat) : Int) := by push_cast; ring
    rw [hcast, jsSubstring_nat l _ _ (by omega) (by omega)]
    have hdropB : l.drop (pre.length + 3) = name ++ (atStr ++ (ver ++ (modTsStr ++ post))) := by
      have hulen : (pre ++ xSlashStr).length = pre.length + 3 := by
        simp only [List.length_append, hx3]
      calc l.drop (pre.length + 3)
          = ((pre ++ xSlashStr) ++ (name ++ (atStr ++ (ver ++ (modTsStr ++ post))))).drop
              ((pre ++ xSlashStr).length) := by
            rw [hulen, hl]; simp [List.append_assoc]
        _ = name ++ (atStr ++ (ver ++ (modTsStr ++ post))) := List.drop_left _ _
    rw [hdropB]
    have harith : pre.length + 3 + name.length - (pre.length + 3) = name.length := by omega
    rw [harith, List.take_left]
  refine ⟨?_, ?_, ?_, ?_⟩
  · simp only [parseLine]
    rw [if_neg hc1, hc2]
    simp only [Bool.false_eq_true, if_false, versionOf]
    rw [hverval]
  · simp only [parseLine]
    rw [if_neg hc1, hc2]
    simp only [Bool.false_eq_true, if_false, nameOf]
    rw [hnameval]
  · exact ⟨pre ++ xSlashStr ++ name ++ atStr, modTsStr ++ post, by rw [hl]; simp [List.append_assoc]⟩
  · exact ⟨pre ++ xSlashStr, atStr ++ ver ++ modTsStr ++ post, by rw [hl]; simp [List.append_assoc]⟩

set_option maxRecDepth 32768 in
theorem parse_thirdparty_fields_witness :
    thirdPartyLine = thirdPartyPre ++ xSlashStr ++ "foo".data ++ atStr ++ "1.0.0".data ++ modTsStr ++ "\";".data ∧
    (versionOf (parseLine thirdPartyLine) = some "1.0.0".data ∧
     nameOf (parseLine thirdPartyLine) = some "foo".data ∧
     "1.0.0".data <:+: thirdPartyLine ∧ "foo".data <:+: thirdPartyLine) :=
  ⟨by decide,
    parse_thirdparty_fields thirdPartyPre "foo".data "1.0.0".data "\";".data thirdPartyLine
      (by decide) (by decide) (by decide) (by decide) (by decide) (by decide)
      ((firstIdx_none_iff _ _).mp (by decide))⟩

set_option maxRecDepth 32768 in
theorem update_replaces_first_occurrence_witness :
    skipped stdLatestSample firstOccModule = false ∧
    firstIdx (oldFrag firstOccModule)
      (("x ".data ++ oldFrag firstOccModule ++ " and foo@1.0.0 again".data).take
        ("x ".data.length + (oldFrag firstOccModule).length - 1)) = none ∧
    ((updateDeps stdLatestSample [firstOccModule]
        ("x ".data ++ oldFrag firstOccModule ++ " and foo@1.0.0 again".data)).1 =
      "x ".data ++ newFrag stdLatestSample firstOccModule ++ " and foo@1.0.0 again".data ∧
    ((updateDeps stdLatestSample [firstOccModule]
        ("x ".data ++ oldFrag firstOccModule ++ " and foo@1.0.0 again".data)).1).drop
      ("x ".data.length + (newFrag stdLatestSample firstOccModule).length) =
        " and foo@1.0.0 again".data) :=
  ⟨by decide, by decide,
    update_replaces_first_occurrence stdLatestSample firstOccModule "x ".data
      " and foo@1.0.0 again".data (by decide) (by decide)⟩

end Dmm
